import Mathlib

/-!
Shallow embedding of the Typst compilation entry point (`src/lib.rs`) and of
the pipeline components it wires together (evaluator with cycle guard and
diagnostics sink, style resolution, typesetting with fragmentation, and the
memoization substrate).  The entry point `compile` and the `World` interface
are translated directly from `src/lib.rs`; the pipeline stages behind them
live in modules that are not part of this tree and are modelled from the
specification, as indicated on each definition.
-/

deriving instance DecidableEq for Except

namespace Typst

/-- Identifier of a source file or raw file, as resolved by the world. -/
structure FileId where
  idx : Nat
deriving DecidableEq

/-- Classification of a diagnostic, mirroring the error taxonomy:
resolution errors (missing file), cyclic imports, evaluation errors,
non-fatal warnings, and exhaustion of the modelled recursion stack. -/
inductive DiagKind where
  | fileNotFound
  | cyclicImport
  | evalError
  | warning
  | outOfFuel
deriving DecidableEq

/-- A span-less diagnostic: a kind together with a message. -/
structure Diag where
  kind : DiagKind
  message : String
deriving DecidableEq

/-- A set of fatal diagnostics, as carried by `SourceResult`. -/
abbrev Diags := List Diag

/-- `FileResult`, the result type of the world's `source` and `file`
accessors: a value or a not-found failure for the requested id. -/
inductive FileError where
  | notFound (id : FileId)
deriving DecidableEq

abbrev FileResult (α : Type) := Except FileError α

/-- Raw bytes of a file. -/
abbrev Bytes := List Nat

/-- Loadable font data (stand-in for the shaping-level font type). -/
structure Font where
  name : String
deriving DecidableEq

/-- A date, optionally produced by the world's `today` accessor. -/
structure Datetime where
  day : Int
deriving DecidableEq

/-- Modelled from the spec: one unit of parsed source structure consumed by
the evaluator — plain text, a module import, a warning-producing construct,
a fatal evaluation error, and the optional font/date queries. -/
inductive Item where
  | text (s : String)
  | importFile (id : FileId)
  | warn (msg : String)
  | raise (msg : String)
  | useFont (index : Nat)
  | useToday (offset : Option Int)
deriving DecidableEq

/-- A source file: its identifier together with its parsed top-level items. -/
structure Source where
  id : FileId
  items : List Item
deriving DecidableEq

/-- Modelled from the spec: the content model produced by evaluation,
flattened to the ordered leaf data that reaches typesetting. -/
abbrev Content := List String

/-- The result of evaluating one source file: the root content produced by
the file's top-level markup. -/
structure Module where
  content : Content
deriving DecidableEq

/-- The cycle guard: the chain of source ids currently being evaluated. -/
abbrev Route := List FileId

/-- The default (empty) route with which `compile` starts. -/
def Route.defaultRoute : Route := []

/-- The diagnostics sink: accumulates warnings during one compilation. -/
structure Tracer where
  warnings : List Diag
deriving DecidableEq

/-- The default (empty) tracer with which `compile` starts. -/
def Tracer.defaultTracer : Tracer := ⟨[]⟩

/-- Append one warning to the sink (append-only accumulation). -/
def Tracer.warn (t : Tracer) (d : Diag) : Tracer := ⟨t.warnings ++ [d]⟩

/-- The environment in which typesetting occurs (`trait World` in
`src/lib.rs`).  The finitely many source files backing the `source`
accessor are held in `files`; the other accessors mirror the trait's
methods: `font` and `today` return absence via `Option`, while `source`
and `file` return a `FileResult` with a not-found failure. -/
structure World where
  libraryScope : List String
  book : List Font
  main : Source
  files : List Source
  blobs : List (FileId × Bytes)
  fonts : List Font
  todayFn : Option Int → Option Datetime

/-- `World::source`: the source text for an identifier, or not-found. -/
def World.source (w : World) (id : FileId) : FileResult Source :=
  match w.files.find? (fun s => s.id == id) with
  | some s => .ok s
  | none => .error (.notFound id)

/-- `World::file`: the raw bytes for an identifier, or not-found. -/
def World.file (w : World) (id : FileId) : FileResult Bytes :=
  match w.blobs.find? (fun b => b.1 == id) with
  | some b => .ok b.2
  | none => .error (.notFound id)

/-- `World::font`: the font at an index of the book, or absence. -/
def World.font (w : World) (index : Nat) : Option Font :=
  w.fonts.get? index

/-- `World::today`: the current date for an hour offset, or absence. -/
def World.today (w : World) (offset : Option Int) : Option Datetime :=
  w.todayFn offset

/-- Modelled from the spec: evaluation of a single item, parameterized by
the handler `imp` used for a module import whose target has already passed
the cycle check.  Warnings go to the tracer; the route is consulted before
any transitive import recursion. -/
def evalItem (w : World) (route : Route)
    (imp : FileId → Tracer → (Except Diags Content) × Tracer)
    (t : Tracer) : Item → (Except Diags Content) × Tracer
  | .text s => (.ok [s], t)
  | .warn m => (.ok [], t.warn ⟨.warning, m⟩)
  | .raise m => (.error [⟨.evalError, m⟩], t)
  | .useFont i =>
    match w.font i with
    | none => (.ok ["missing font"], t.warn ⟨.warning, "font unavailable"⟩)
    | some f => (.ok [f.name], t)
  | .useToday off =>
    match w.today off with
    | none => (.ok ["no date"], t)
    | some _ => (.ok ["date"], t)
  | .importFile id =>
    if id ∈ route then (.error [⟨.cyclicImport, "cyclic import"⟩], t)
    else imp id t

/-- Modelled from the spec: evaluation of a list of items in document
order; a fatal diagnostic aborts the list. -/
def evalList (w : World) (route : Route)
    (imp : FileId → Tracer → (Except Diags Content) × Tracer) :
    Tracer → List Item → (Except Diags Content) × Tracer
  | t, [] => (.ok [], t)
  | t, it :: rest =>
    match evalItem w route imp t it with
    | (.error e, t') => (.error e, t')
    | (.ok c, t') =>
      match evalList w route imp t' rest with
      | (.error e, t'') => (.error e, t'')
      | (.ok cs, t'') => (.ok (c ++ cs), t'')

/-- Modelled from the spec: the import handler — resolve the target through
the world, failing with a not-found diagnostic if it does not resolve, and
otherwise evaluate the imported source recursively (through `evalRec`,
instantiated with the recursive evaluator at the remaining stack). -/
def importHandler (w : World)
    (evalRec : Route → Tracer → Source → (Except Diags Module) × Tracer)
    (route' : Route) (id : FileId) (t : Tracer) :
    (Except Diags Content) × Tracer :=
  match w.source id with
  | .error _ => (.error [⟨.fileNotFound, "file not found"⟩], t)
  | .ok imported =>
    match evalRec route' t imported with
    | (.error e, t') => (.error e, t')
    | (.ok _, t') => (.ok [], t')

/-- Modelled from the spec: `eval::eval`, evaluation of one source file into
a `Module`.  The file's id is pushed onto the route for the dynamic extent
of its evaluation.  The `fuel` argument models the machine call stack of
the recursive Rust implementation. -/
def evalSource (w : World) : Nat → Route → Tracer → Source →
    (Except Diags Module) × Tracer
  | 0, _, t, _ => (.error [⟨.outOfFuel, "recursion limit"⟩], t)
  | fuel + 1, route, t, src =>
    match evalList w (src.id :: route)
        (importHandler w (evalSource w fuel) (src.id :: route))
        t src.items with
    | (.error e, t') => (.error e, t')
    | (.ok c, t') => (.ok ⟨c⟩, t')

/-- A fixed-size page canvas holding the ordered items placed on it. -/
structure DocFrame where
  items : List String
deriving DecidableEq

/-- The typeset document: an ordered sequence of page frames. -/
structure Document where
  pages : List DocFrame
deriving DecidableEq

/-- Modelled from the spec: `model::typeset`, turning the module's content
into a document; typesetting is fault-tolerant and records warnings in the
tracer rather than failing, but keeps the fallible result type of the
Rust signature. -/
def typeset (_w : World) (t : Tracer) (c : Content) :
    (Except Diags Document) × Tracer :=
  (.ok ⟨[⟨c⟩]⟩, t)

/-- `compile` from `src/lib.rs`: create a fresh default route and tracer,
evaluate the main source into a module, propagating a fatal evaluation
error as the result, and otherwise typeset the module's content.  The
tracer is local to this function and does not escape through the returned
value. -/
def compile (fuel : Nat) (w : World) : Except Diags Document :=
  let route : Route := Route.defaultRoute
  let tracer : Tracer := Tracer.defaultTracer
  match evalSource w fuel route tracer w.main with
  | (.error e, _) => .error e
  | (.ok m, tracer') => (typeset w tracer' m.content).1

/-- The pipeline of `compile` made parametric in the starting route and
tracer, used to state that `compile` always starts from the defaults. -/
def compileWith (fuel : Nat) (route : Route) (tracer : Tracer) (w : World) :
    Except Diags Document :=
  match evalSource w fuel route tracer w.main with
  | (.error e, _) => .error e
  | (.ok m, tracer') => (typeset w tracer' m.content).1

/-- The pipeline of `compile` instrumented to also return the warnings the
tracer has accumulated by the end of the run (on success and on failure). -/
def compileFull (fuel : Nat) (w : World) :
    (Except Diags Document) × List Diag :=
  match evalSource w fuel Route.defaultRoute Tracer.defaultTracer w.main with
  | (.error e, t) => (.error e, t.warnings)
  | (.ok m, t) =>
    match typeset w t m.content with
    | (r, t') => (r, t'.warnings)

/-- The warnings accumulated during a run of the pipeline. -/
def compileWarnings (fuel : Nat) (w : World) : List Diag :=
  (compileFull fuel w).2

/-- A world whose main source evaluates successfully but records a warning. -/
def warnWorld : World :=
  { libraryScope := [], book := [], fonts := [], blobs := []
    main := ⟨⟨0⟩, [Item.text "hello", Item.warn "deprecated"]⟩
    files := []
    todayFn := fun _ => none }

/-- Like `warnWorld` but without the warning-producing construct. -/
def quietWorld : World :=
  { libraryScope := [], book := [], fonts := [], blobs := []
    main := ⟨⟨0⟩, [Item.text "hello"]⟩
    files := []
    todayFn := fun _ => none }

/-- C1 (counterexample): two providers whose runs accumulate different
warnings (one of them a non-empty set) while `compile` returns the very
same value on both, so the caller of the entry point cannot recover the
accumulated warnings from anything `compile` deposits: the warnings are
discarded, contradicting the claim that none is discarded. -/
theorem compile_warning_loss_example :
    compile 1 warnWorld = compile 1 quietWorld
    ∧ compileWarnings 1 warnWorld ≠ compileWarnings 1 quietWorld
    ∧ compileWarnings 1 warnWorld ≠ [] := by
  decide

/-- C1 (amended): `compile` returns either a Document or a set of fatal
diagnostics, and this returned value is exactly the warnings-free first
component of the instrumented pipeline run: the warnings accumulated in
the compile-local tracer are dropped on return rather than deposited to
the caller. -/
theorem compile_discards_tracer_warnings (fuel : Nat) (w : World) :
    compile fuel w = (compileFull fuel w).1 := by
  rcases hev : evalSource w fuel Route.defaultRoute Tracer.defaultTracer w.main
    with ⟨r, t⟩
  cases r with
  | error e => simp [compile, compileFull, hev]
  | ok m => simp [compile, compileFull, hev, typeset]

/-- C2: when evaluation of the provider's main source succeeds with module
`m` (and tracer state `t`), `compile` is exactly the typesetting of that
module's content — the two pipeline stages composed in order, with
precisely `m.content` and nothing else reaching the typesetting engine. -/
theorem compile_is_eval_then_typeset (fuel : Nat) (w : World) (m : Module)
    (t : Tracer)
    (h : evalSource w fuel Route.defaultRoute Tracer.defaultTracer w.main
      = (.ok m, t)) :
    compile fuel w = (typeset w t m.content).1 := by
  simp [compile, h]

/-- C2 (witness): a concrete provider on which evaluation yields the module
with content `["hello"]`, and `compile` equals its typesetting. -/
theorem compile_is_eval_then_typeset_instance :
    evalSource quietWorld 1 Route.defaultRoute Tracer.defaultTracer
      quietWorld.main = (.ok ⟨["hello"]⟩, ⟨[]⟩)
    ∧ compile 1 quietWorld = (typeset quietWorld ⟨[]⟩ ["hello"]).1 :=
  ⟨by decide, compile_is_eval_then_typeset 1 quietWorld ⟨["hello"]⟩ ⟨[]⟩
    (by decide)⟩

/-- C3: when evaluation of the main source fails with a fatal error set `e`,
`compile` returns exactly that error set as the single top-level result,
and no document (not even a partial one) is produced. -/
theorem compile_propagates_eval_error (fuel : Nat) (w : World) (e : Diags)
    (h : (evalSource w fuel Route.defaultRoute Tracer.defaultTracer
      w.main).1 = .error e) :
    compile fuel w = .error e ∧ ∀ d : Document, compile fuel w ≠ .ok d := by
  rcases hev : evalSource w fuel Route.defaultRoute Tracer.defaultTracer w.main
    with ⟨r, t⟩
  rw [hev] at h
  simp only at h
  subst h
  refine ⟨?_, ?_⟩
  · simp [compile, hev]
  · intro d
    simp [compile, hev]

/-- C3 (witness): a provider whose main source raises a fatal evaluation
error; `compile` returns that error and produces no document. -/
theorem compile_propagates_eval_error_instance :
    compile 1 ⟨[], [], ⟨⟨0⟩, [Item.raise "boom"]⟩, [], [], [],
      fun _ => none⟩ = .error [⟨.evalError, "boom"⟩] :=
  (compile_propagates_eval_error 1
    ⟨[], [], ⟨⟨0⟩, [Item.raise "boom"]⟩, [], [], [], fun _ => none⟩
    [⟨.evalError, "boom"⟩] (by decide)).1

/-- C10: every call to `compile` starts the pipeline from a freshly
constructed default route and default tracer — the empty cycle-guard chain
and the empty diagnostics sink — so no cycle-detection or diagnostic state
can flow from one `compile` call into another through the entry point. -/
theorem compile_starts_from_defaults (fuel : Nat) (w : World) :
    compile fuel w = compileWith fuel Route.defaultRoute Tracer.defaultTracer w
    ∧ Route.defaultRoute = ([] : Route)
    ∧ Tracer.defaultTracer = ⟨[]⟩ :=
  ⟨rfl, rfl, rfl⟩

/-- A world with no fonts and no files, used to exercise the optional and
mandatory resolution queries. -/
def bareWorld : World :=
  { libraryScope := [], book := [], fonts := [], blobs := []
    main := ⟨⟨0⟩, []⟩
    files := []
    todayFn := fun _ => none }

/-- C6: the optional queries `font` and `today` signal a missing font or an
unavailable date by `Option` absence and such absence is not fatal to the
enclosing evaluation (the item still evaluates to placeholder content, at
most recording a warning), whereas `source` and `file` signal a missing
identifier by a not-found failure value — never by absence — and a missing
source is fatal to the import evaluating it; an out-of-range font index
yields absence, and an identifier backed by no source or no blob yields
the respective not-found failure. -/
theorem optional_queries_absent_not_fatal :
    (∀ (w : World) (route : Route)
       (imp : FileId → Tracer → (Except Diags Content) × Tracer)
       (t : Tracer) (i : Nat),
       w.font i = none →
       evalList w route imp t [Item.useFont i]
         = (.ok ["missing font"], t.warn ⟨.warning, "font unavailable"⟩))
    ∧ (∀ (w : World) (route : Route)
       (imp : FileId → Tracer → (Except Diags Content) × Tracer)
       (t : Tracer) (off : Option Int),
       w.today off = none →
       evalList w route imp t [Item.useToday off] = (.ok ["no date"], t))
    ∧ (∀ (w : World) (fuel : Nat) (route : Route) (t : Tracer)
       (mid id : FileId) (err : FileError),
       id ∉ mid :: route → w.source id = .error err →
       evalSource w (fuel + 1) route t ⟨mid, [Item.importFile id]⟩
         = (.error [⟨.fileNotFound, "file not found"⟩], t))
    ∧ (∀ (w : World) (id : FileId), (∀ s ∈ w.files, s.id ≠ id) →
       w.source id = .error (.notFound id))
    ∧ (∀ (w : World) (id : FileId), (∀ b ∈ w.blobs, b.1 ≠ id) →
       w.file id = .error (.notFound id))
    ∧ (∀ (w : World) (i : Nat), w.fonts.length ≤ i → w.font i = none) := by
  refine ⟨?_, ?_, ?_, ?_, ?_, ?_⟩
  · intro w route imp t i h
    simp [evalList, evalItem, h]
  · intro w route imp t off h
    simp [evalList, evalItem, h]
  · intro w fuel route t mid id err h1 h2
    simp [evalSource, evalList, evalItem, importHandler, h1, h2]
  · intro w id h
    unfold World.source
    cases hf : w.files.find? (fun s => s.id == id) with
    | none => rfl
    | some s =>
      exfalso
      have hmem := List.mem_of_find?_eq_some hf
      have hpred := List.find?_some hf
      simp at hpred
      exact h s hmem hpred
  · intro w id h
    unfold World.file
    cases hf : w.blobs.find? (fun b => b.1 == id) with
    | none => rfl
    | some b =>
      exfalso
      have hmem := List.mem_of_find?_eq_some hf
      have hpred := List.find?_some hf
      simp at hpred
      exact h b hmem hpred
  · intro w i h
    unfold World.font
    exact List.get?_eq_none.mpr h

/-- C6 (witness): on a world with no fonts, no files and no blobs, the font
query at index 0 is absent yet evaluates non-fatally, the date query is
absent yet evaluates non-fatally, importing the unresolvable identifier 1
fails with the not-found diagnostic, the source and file queries report
not-found failure values, and the font query reports absence. -/
theorem optional_queries_absent_not_fatal_instance :
    evalList bareWorld [] (fun _ t => (.ok [], t)) ⟨[]⟩ [Item.useFont 0]
      = (.ok ["missing font"],
         Tracer.warn ⟨[]⟩ ⟨.warning, "font unavailable"⟩)
    ∧ evalList bareWorld [] (fun _ t => (.ok [], t)) ⟨[]⟩
        [Item.useToday none] = (.ok ["no date"], ⟨[]⟩)
    ∧ evalSource bareWorld 1 [] ⟨[]⟩ ⟨⟨0⟩, [Item.importFile ⟨1⟩]⟩
        = (.error [⟨.fileNotFound, "file not found"⟩], ⟨[]⟩)
    ∧ bareWorld.source ⟨1⟩ = .error (.notFound ⟨1⟩)
    ∧ bareWorld.file ⟨1⟩ = .error (.notFound ⟨1⟩)
    ∧ bareWorld.font 0 = none :=
  ⟨optional_queries_absent_not_fatal.1 bareWorld [] _ ⟨[]⟩ 0 (by decide),
   optional_queries_absent_not_fatal.2.1 bareWorld [] _ ⟨[]⟩ none (by decide),
   optional_queries_absent_not_fatal.2.2.1 bareWorld 0 [] ⟨[]⟩ ⟨0⟩ ⟨1⟩
     (.notFound ⟨1⟩) (by decide) (by decide),
   optional_queries_absent_not_fatal.2.2.2.1 bareWorld ⟨1⟩ (by decide),
   optional_queries_absent_not_fatal.2.2.2.2.1 bareWorld ⟨1⟩ (by decide),
   optional_queries_absent_not_fatal.2.2.2.2.2 bareWorld 0 (by decide)⟩

/-- Modelled from the spec: one style-override frame, setting one property
to one value. -/
structure StyleEntry where
  prop : Nat
  value : Nat
deriving DecidableEq

/-- Modelled from the spec: a persistent style chain; the head is the
innermost (most recently pushed) override frame. -/
abbrev StyleChain := List StyleEntry

/-- Entering a scope that sets a property pushes a new head frame; the old
chain is shared, never mutated. -/
def StyleChain.set (c : StyleChain) (p v : Nat) : StyleChain := ⟨p, v⟩ :: c

/-- Modelled from the spec: resolve a property against a chain — the
innermost frame that overrides it wins, with a global default fallback. -/
def resolve (c : StyleChain) (p : Nat) (dflt : Nat) : Nat :=
  match c with
  | [] => dflt
  | f :: rest => if f.prop = p then f.value else resolve rest p dflt

/-- C9: style resolution is properly scoped: the innermost pushed override
of a property wins; pushing an unrelated property is invisible to lookups
of another property; a whole nested extension that never overrides a
property is transparent for it (so nested scopes never leak to siblings
or ancestors, while outer settings remain visible beneath them); and with
no override at all the global default is returned. -/
theorem style_resolution_scoped :
    (∀ (c : StyleChain) (p v d : Nat),
       resolve (StyleChain.set c p v) p d = v)
    ∧ (∀ (c : StyleChain) (p q v d : Nat), q ≠ p →
       resolve (StyleChain.set c q v) p d = resolve c p d)
    ∧ (∀ (ext c : StyleChain) (p d : Nat), (∀ f ∈ ext, f.prop ≠ p) →
       resolve (ext ++ c) p d = resolve c p d)
    ∧ (∀ (p d : Nat), resolve ([] : StyleChain) p d = d) := by
  refine ⟨?_, ?_, ?_, ?_⟩
  · intro c p v d
    simp [resolve, StyleChain.set]
  · intro c p q v d h
    simp [resolve, StyleChain.set, h]
  · intro ext c p d h
    induction ext with
    | nil => rfl
    | cons f rest ih =>
      have hf : f.prop ≠ p := h f (List.mem_cons_self f rest)
      have hrest : ∀ g ∈ rest, g.prop ≠ p := fun g hg =>
        h g (List.mem_cons_of_mem f hg)
      simp [resolve, hf, ih hrest]
  · intro p d
    rfl

/-- C9 (witness): with an outer frame setting property 1 to 5, a nested
override of property 1 wins (value 9), a nested setting of property 2 is
transparent for property 1 (value 5 shines through, so the sibling that
still holds the outer chain observes the outer value), and an unset
property falls back to the default. -/
theorem style_resolution_scoped_instance :
    resolve (StyleChain.set [⟨1, 5⟩] 1 9) 1 0 = 9
    ∧ resolve (StyleChain.set [⟨1, 5⟩] 2 9) 1 0 = 5
    ∧ resolve ([⟨2, 9⟩, ⟨3, 7⟩] ++ [⟨1, 5⟩]) 1 0 = 5
    ∧ resolve [] 1 0 = 0 :=
  ⟨style_resolution_scoped.1 [⟨1, 5⟩] 1 9 0,
   style_resolution_scoped.2.1 [⟨1, 5⟩] 1 2 9 0 (by decide),
   style_resolution_scoped.2.2.1 [⟨2, 9⟩, ⟨3, 7⟩] [⟨1, 5⟩] 1 0 (by decide),
   style_resolution_scoped.2.2.2 1 0⟩

/-- One paragraph line, the permitted break unit of fragmentation, with its
required height. -/
structure Line where
  height : Nat
deriving DecidableEq

/-- A page-sized fragment produced for one paragraph: the lines placed on
one page. -/
structure ParFrame where
  lines : List Line
deriving DecidableEq

/-- The total height required by a list of lines. -/
def paraHeight (ls : List Line) : Nat := (ls.map Line.height).sum

/-- The height consumed by a fragment. -/
def ParFrame.height (f : ParFrame) : Nat := paraHeight f.lines

/-- Modelled from the spec: fragmentation of a paragraph's lines onto pages
of height `H`.  A line that fits in the remaining space joins the current
fragment; a line that does not fit closes the current fragment and starts
a continuation fragment on the next page; an atomic line taller than any
page is placed anyway on a page of its own, overflowing, and a warning is
recorded.  `cur` and `used` are the lines and consumed height of the
fragment under construction. -/
def layoutAux (H : Nat) : List Line → Nat → List Line →
    List ParFrame × List Diag
  | cur, _, [] => (if cur.isEmpty then [] else [⟨cur⟩], [])
  | cur, used, l :: rest =>
    if used + l.height ≤ H then
      layoutAux H (cur ++ [l]) (used + l.height) rest
    else if l.height ≤ H then
      let r := layoutAux H [l] l.height rest
      ((if cur.isEmpty then [] else [⟨cur⟩]) ++ r.1, r.2)
    else
      let r := layoutAux H [] 0 rest
      ((if cur.isEmpty then [] else [⟨cur⟩]) ++ ⟨[l]⟩ :: r.1,
       ⟨.warning, "overflowing page"⟩ :: r.2)

/-- Fragment a whole paragraph onto pages of height `H`. -/
def typesetPara (H : Nat) (lines : List Line) : List ParFrame × List Diag :=
  layoutAux H [] 0 lines

/-- The concatenation of the content of a sequence of fragments. -/
def framesContent (fs : List ParFrame) : List Line :=
  (fs.map ParFrame.lines).flatten

theorem framesContent_append (a b : List ParFrame) :
    framesContent (a ++ b) = framesContent a ++ framesContent b := by
  simp [framesContent]

theorem framesContent_cons (f : ParFrame) (fs : List ParFrame) :
    framesContent (f :: fs) = f.lines ++ framesContent fs := by
  simp [framesContent]

theorem layoutAux_content (H : Nat) (ls : List Line) :
    ∀ (cur : List Line) (used : Nat),
    framesContent (layoutAux H cur used ls).1 = cur ++ ls := by
  induction ls with
  | nil =>
    intro cur used
    cases cur with
    | nil => simp [layoutAux, framesContent]
    | cons a as => simp [layoutAux, framesContent]
  | cons l rest ih =>
    intro cur used
    by_cases h1 : used + l.height ≤ H
    · rw [layoutAux]
      simp only [h1, if_true]
      rw [ih (cur ++ [l]) (used + l.height)]
      simp
    · by_cases h2 : l.height ≤ H
      · rw [layoutAux]
        simp only [h1, if_false, h2, if_true]
        rw [framesContent_append, ih [l] l.height]
        cases cur with
        | nil => simp [framesContent]
        | cons a as => simp [framesContent]
      · rw [layoutAux]
        simp only [h1, if_false, h2]
        rw [framesContent_append, framesContent_cons, ih [] 0]
        cases cur with
        | nil => simp [framesContent]
        | cons a as => simp [framesContent]

theorem layoutAux_height (H : Nat) (ls : List Line) :
    ∀ (cur : List Line) (used : Nat), used = paraHeight cur → used ≤ H →
    (∀ l ∈ ls, l.height ≤ H) →
    ∀ f ∈ (layoutAux H cur used ls).1, f.height ≤ H := by
  induction ls with
  | nil =>
    intro cur used hcur hle _ f hf
    rw [layoutAux] at hf
    cases cur with
    | nil => simp at hf
    | cons a as =>
      simp at hf
      subst hf
      show paraHeight (a :: as) ≤ H
      rw [← hcur]
      exact hle
  | cons l rest ih =>
    intro cur used hcur hle hfit f hf
    have hlH : l.height ≤ H := hfit l (List.mem_cons_self l rest)
    have hrest : ∀ x ∈ rest, x.height ≤ H := fun x hx =>
      hfit x (List.mem_cons_of_mem l hx)
    by_cases h1 : used + l.height ≤ H
    · rw [layoutAux] at hf
      simp only [h1, if_true] at hf
      refine ih (cur ++ [l]) (used + l.height) ?_ h1 hrest f hf
      simp [paraHeight, hcur]
    · rw [layoutAux] at hf
      simp only [h1, if_false, hlH, if_true] at hf
      rw [List.mem_append] at hf
      cases hf with
      | inl hcl =>
        cases hc : cur.isEmpty with
        | true => simp [hc] at hcl
        | false =>
          simp [hc] at hcl
          subst hcl
          show paraHeight cur ≤ H
          rw [← hcur]
          exact hle
      | inr hr =>
        refine ih [l] l.height ?_ hlH hrest f hr
        simp [paraHeight]

/-- C8 (counterexample): a paragraph of four lines, each fitting on a page
of height 10, whose total required height is exactly 1.5 times the page
height, is fragmented into three frames, not two: greedy deferral at the
page boundary can strand a tall line, so "exactly two Frames" fails even
though nothing is duplicated or dropped. -/
theorem paragraph_three_frames_example :
    (typesetPara 10 [⟨4⟩, ⟨7⟩, ⟨3⟩, ⟨1⟩]).1.length = 3
    ∧ 2 * paraHeight [⟨4⟩, ⟨7⟩, ⟨3⟩, ⟨1⟩] = 3 * 10
    ∧ (∀ l ∈ ([⟨4⟩, ⟨7⟩, ⟨3⟩, ⟨1⟩] : List Line), l.height ≤ 10)
    ∧ framesContent (typesetPara 10 [⟨4⟩, ⟨7⟩, ⟨3⟩, ⟨1⟩]).1
        = [⟨4⟩, ⟨7⟩, ⟨3⟩, ⟨1⟩] := by
  decide

/-- C8 (amended): a paragraph each of whose lines fits within the page
height and whose content requires height 1.5 H is fragmented into at least
two frames (two exactly in the generic case, but three are possible when
line heights straddle the page boundary), and the concatenation of the
produced frames' content is exactly the original paragraph content — no
part duplicated and no part dropped. -/
theorem paragraph_fragmentation (H : Nat) (lines : List Line)
    (hH : 0 < H) (hfit : ∀ l ∈ lines, l.height ≤ H)
    (hhalf : 2 * paraHeight lines = 3 * H) :
    2 ≤ (typesetPara H lines).1.length
    ∧ framesContent (typesetPara H lines).1 = lines := by
  have hcov : framesContent (typesetPara H lines).1 = lines :=
    layoutAux_content H lines [] 0
  refine ⟨?_, hcov⟩
  have hhb : ∀ f ∈ (typesetPara H lines).1, f.height ≤ H :=
    layoutAux_height H lines [] 0 rfl (Nat.zero_le H) hfit
  rcases hfs : (typesetPara H lines).1 with _ | ⟨f, rest⟩
  · rw [hfs] at hcov
    simp only [framesContent, List.map_nil, List.flatten_nil] at hcov
    have h0 : paraHeight lines = 0 := by
      rw [← hcov]
      rfl
    rw [h0] at hhalf
    omega
  · rcases rest with _ | ⟨f2, rest2⟩
    · rw [hfs] at hcov
      have hfh : f.height ≤ H :=
        hhb f (by rw [hfs]; exact List.mem_cons_self f [])
      simp only [framesContent, List.map_cons, List.map_nil,
        List.flatten_cons, List.flatten_nil, List.append_nil] at hcov
      have hp : paraHeight lines ≤ H := by
        rw [← hcov]
        exact hfh
      omega
    · simp

/-- C8 (witness): a two-line paragraph on pages of height 10, requiring
total height 15 = 1.5 times the page height, yields at least two frames
and its content is covered exactly. -/
theorem paragraph_fragmentation_instance :
    2 ≤ (typesetPara 10 [⟨7⟩, ⟨8⟩]).1.length
    ∧ framesContent (typesetPara 10 [⟨7⟩, ⟨8⟩]).1 = [⟨7⟩, ⟨8⟩] :=
  paragraph_fragmentation 10 [⟨7⟩, ⟨8⟩] (by decide) (by decide) (by decide)

/-- Modelled from the spec: the memoization substrate — a wrapper around a
pure function keyed by a content-derived fingerprint of the argument; a
hit returns the cached result, a miss computes the function. -/
def memoize {α β : Type} (f : α → β) (fp : α → Nat)
    (cache : List (Nat × β)) (a : α) : β :=
  match cache.find? (fun e => e.1 == fp a) with
  | some e => e.2
  | none => f a

/-- Validity of a cache for a function and fingerprint: every entry holds,
under its key, the value of the function at every argument with that
fingerprint (the validity horizon: entries for changed inputs are gone). -/
def ValidCache {α β : Type} (f : α → β) (fp : α → Nat)
    (cache : List (Nat × β)) : Prop :=
  ∀ e ∈ cache, ∀ a, fp a = e.1 → f a = e.2

theorem memoize_eq {α β : Type} (f : α → β) (fp : α → Nat)
    (cache : List (Nat × β)) (h : ValidCache f fp cache) (a : α) :
    memoize f fp cache a = f a := by
  unfold memoize
  cases hf : cache.find? (fun e => e.1 == fp a) with
  | none => rfl
  | some e =>
    have hmem := List.mem_of_find?_eq_some hf
    have hpred := List.find?_some hf
    simp at hpred
    exact (h e hmem a hpred.symm).symm

/-- C7: cache transparency — running the compilation entry point through
the memoization substrate with any valid cache yields exactly the result
of the unmemoized entry point (an empty or disabled cache included), and
likewise for the memoized evaluation step; caching affects only latency,
never the produced document or module. -/
theorem memoization_transparent :
    (∀ (fuel : Nat) (fp : World → Nat)
       (cache : List (Nat × Except Diags Document)) (w : World),
       ValidCache (compile fuel) fp cache →
       memoize (compile fuel) fp cache w = compile fuel w)
    ∧ (∀ (w : World) (fuel : Nat)
       (fp : Route × Tracer × Source → Nat)
       (cache : List (Nat × ((Except Diags Module) × Tracer)))
       (arg : Route × Tracer × Source),
       ValidCache
         (fun a : Route × Tracer × Source =>
           evalSource w fuel a.1 a.2.1 a.2.2) fp cache →
       memoize
         (fun a : Route × Tracer × Source =>
           evalSource w fuel a.1 a.2.1 a.2.2) fp cache arg
         = evalSource w fuel arg.1 arg.2.1 arg.2.2) := by
  constructor
  · intro fuel fp cache w h
    exact memoize_eq (compile fuel) fp cache h w
  · intro w fuel fp cache arg h
    exact memoize_eq _ fp cache h arg

/-- C7 (witness): on a concrete provider, the memoized entry point with a
concrete valid cache (its only entry's key matches no argument) returns
the same document as the unmemoized one, and likewise for evaluation. -/
theorem memoization_transparent_instance :
    memoize (compile 1) (fun _ => 0) [(1, .error [])] quietWorld
      = compile 1 quietWorld
    ∧ memoize
        (fun a : Route × Tracer × Source =>
          evalSource quietWorld 1 a.1 a.2.1 a.2.2) (fun _ => 0) []
        ([], ⟨[]⟩, quietWorld.main)
      = evalSource quietWorld 1 [] ⟨[]⟩ quietWorld.main :=
  ⟨memoization_transparent.1 1 (fun _ => 0) [(1, .error [])] quietWorld
    (by simp [ValidCache]),
   memoization_transparent.2 quietWorld 1 (fun _ => 0) []
    ([], ⟨[]⟩, quietWorld.main) (by simp [ValidCache])⟩

/-- Whether a result contains the diagnostic that models exhaustion of the
recursion stack; every bounded-depth run is free of it. -/
def hasFuelErr {α : Type} : Except Diags α → Bool
  | .error es => es.any (fun d => d.kind == DiagKind.outOfFuel)
  | .ok _ => false

theorem evalItem_noFuelErr (w : World) (route : Route)
    (imp : FileId → Tracer → (Except Diags Content) × Tracer)
    (himp : ∀ id t', id ∉ route → hasFuelErr (imp id t').1 = false)
    (t : Tracer) (it : Item) :
    hasFuelErr (evalItem w route imp t it).1 = false := by
  cases it with
  | text s => rfl
  | warn m => rfl
  | raise m => rfl
  | useFont i =>
    cases hf : w.font i with
    | none => simp [evalItem, hf, hasFuelErr]
    | some f => simp [evalItem, hf, hasFuelErr]
  | useToday off =>
    cases hf : w.today off with
    | none => simp [evalItem, hf, hasFuelErr]
    | some d => simp [evalItem, hf, hasFuelErr]
  | importFile id =>
    by_cases hm : id ∈ route
    · simp only [evalItem]
      rw [if_pos hm]
      rfl
    · simp only [evalItem]
      rw [if_neg hm]
      exact himp id t hm

theorem evalList_noFuelErr (w : World) (route : Route)
    (imp : FileId → Tracer → (Except Diags Content) × Tracer)
    (himp : ∀ id t', id ∉ route → hasFuelErr (imp id t').1 = false)
    (t : Tracer) (items : List Item) :
    hasFuelErr (evalList w route imp t items).1 = false := by
  induction items generalizing t with
  | nil => rfl
  | cons it rest ih =>
    rw [evalList]
    split
    next e t' hstep =>
      have h0 := evalItem_noFuelErr w route imp himp t it
      rw [hstep] at h0
      exact h0
    next c t' hstep =>
      split
      next e2 t2 hrest =>
        have h2 := ih t'
        rw [hrest] at h2
        exact h2
      next cs t2 hrest => rfl

theorem World.source_closed (w : World) (id : FileId) (s : Source)
    (h : w.source id = .ok s) : s.id = id ∧ id ∈ w.files.map Source.id := by
  unfold World.source at h
  cases hf : w.files.find? (fun s => s.id == id) with
  | none =>
    rw [hf] at h
    exact absurd h (by simp)
  | some s' =>
    rw [hf] at h
    simp only [Except.ok.injEq] at h
    subst h
    have hmem := List.mem_of_find?_eq_some hf
    have hpred := List.find?_some hf
    simp at hpred
    exact ⟨hpred, by rw [← hpred]; exact List.mem_map_of_mem Source.id hmem⟩

theorem evalSource_noFuelErr (w : World) (ids : List FileId)
    (hclosed : ∀ id s, w.source id = .ok s → s.id = id ∧ id ∈ ids) :
    ∀ (fuel : Nat) (route : Route) (t : Tracer) (src : Source),
    (src.id :: route).Nodup → (∀ x ∈ src.id :: route, x ∈ ids) →
    ids.length - route.length ≤ fuel →
    hasFuelErr (evalSource w fuel route t src).1 = false := by
  intro fuel
  induction fuel with
  | zero =>
    intro route t src hnd hsub hle
    exfalso
    have hsp := List.subperm_of_subset hnd (fun x hx => hsub x hx)
    have hlen := hsp.length_le
    simp only [List.length_cons] at hlen
    omega
  | succ fuel ih =>
    intro route t src hnd hsub hle
    have himp : ∀ id t', id ∉ src.id :: route →
        hasFuelErr
          (importHandler w (evalSource w fuel) (src.id :: route) id t').1
          = false := by
      intro id t' hnotin
      rw [importHandler]
      split
      next e heq => rfl
      next imported hsrc =>
        obtain ⟨hid, hmem⟩ := hclosed id imported hsrc
        have hnd' : (imported.id :: src.id :: route).Nodup := by
          rw [hid]
          exact List.nodup_cons.mpr ⟨hnotin, hnd⟩
        have hsub' : ∀ x ∈ imported.id :: src.id :: route, x ∈ ids := by
          intro x hx
          rcases List.mem_cons.mp hx with h | h
          · rw [h, hid]
            exact hmem
          · exact hsub x h
        have hle' : ids.length - (src.id :: route).length ≤ fuel := by
          simp only [List.length_cons]
          omega
        have hrec := ih (src.id :: route) t' imported hnd' hsub' hle'
        rcases hr : evalSource w fuel (src.id :: route) t' imported
          with ⟨r, t''⟩
        rw [hr] at hrec
        cases r with
        | error e => exact hrec
        | ok m => rfl
    rw [evalSource]
    rcases hel : evalList w (src.id :: route)
        (importHandler w (evalSource w fuel) (src.id :: route)) t src.items
      with ⟨r, t'⟩
    have hl := evalList_noFuelErr w (src.id :: route)
      (importHandler w (evalSource w fuel) (src.id :: route)) himp t src.items
    rw [hel] at hl
    cases r with
    | error e => exact hl
    | ok c => rfl

/-- A source whose single item imports another source. -/
def chainSrc (i j : Nat) : Source := ⟨⟨i⟩, [Item.importFile ⟨j⟩]⟩

/-- A world whose main source imports itself (cycle of length 1). -/
def cycleWorld1 : World :=
  { libraryScope := [], book := [], fonts := [], blobs := []
    main := chainSrc 0 0
    files := [chainSrc 0 0]
    todayFn := fun _ => none }

/-- A world with a two-file import cycle A → B → A. -/
def cycleWorld2 : World :=
  { libraryScope := [], book := [], fonts := [], blobs := []
    main := chainSrc 0 1
    files := [chainSrc 0 1, chainSrc 1 0]
    todayFn := fun _ => none }

/-- A world with a ten-file import cycle 0 → 1 → ⋯ → 9 → 0. -/
def cycleWorld10 : World :=
  { libraryScope := [], book := [], fonts := [], blobs := []
    main := chainSrc 0 1
    files := [chainSrc 0 1, chainSrc 1 2, chainSrc 2 3, chainSrc 3 4,
              chainSrc 4 5, chainSrc 5 6, chainSrc 6 7, chainSrc 7 8,
              chainSrc 8 9, chainSrc 9 0]
    todayFn := fun _ => none }

/-- C5: before a transitively imported module is evaluated the current
route is checked, and a target already on the route fails immediately with
the cyclic-import diagnostic, whatever the import handler would do (so no
recursion happens); a source importing itself directly or through chains
of length 2 and 10 terminates with the cyclic-import diagnostic through
the entry point; and evaluation never exhausts a recursion stack at least
as deep as the number of source files of the world plus one for the main
source — the recursion depth is bounded by the number of source files. -/
theorem cyclic_import_detection :
    (∀ (w : World) (route : Route)
       (imp : FileId → Tracer → (Except Diags Content) × Tracer)
       (t : Tracer) (id : FileId) (rest : List Item), id ∈ route →
       evalList w route imp t (Item.importFile id :: rest)
         = (.error [⟨.cyclicImport, "cyclic import"⟩], t))
    ∧ compile 5 cycleWorld1 = .error [⟨.cyclicImport, "cyclic import"⟩]
    ∧ compile 5 cycleWorld2 = .error [⟨.cyclicImport, "cyclic import"⟩]
    ∧ compile 12 cycleWorld10 = .error [⟨.cyclicImport, "cyclic import"⟩]
    ∧ (∀ (w : World) (fuel : Nat) (t : Tracer),
       w.files.length + 1 ≤ fuel →
       hasFuelErr (evalSource w fuel Route.defaultRoute t w.main).1
         = false) := by
  refine ⟨?_, by decide, by decide, by decide, ?_⟩
  · intro w route imp t id rest h
    simp [evalList, evalItem, h]
  · intro w fuel t hfuel
    refine evalSource_noFuelErr w (w.main.id :: w.files.map Source.id)
      ?_ fuel Route.defaultRoute t w.main ?_ ?_ ?_
    · intro id s h
      have hc := World.source_closed w id s h
      exact ⟨hc.1, List.mem_cons_of_mem _ hc.2⟩
    · exact List.nodup_singleton w.main.id
    · intro x hx
      rcases List.mem_cons.mp hx with h | h
      · rw [h]
        exact List.mem_cons_self _ _
      · simp [Route.defaultRoute] at h
    · simp only [Route.defaultRoute, List.length_nil, List.length_cons,
        List.length_map, Nat.sub_zero]
      omega

/-- C5 (witness): an import whose target is already on the route fails
immediately with the cyclic-import diagnostic on a concrete route and
handler, and evaluation of the two-file cyclic world within stack bound
3 (two files plus main) never exhausts the stack. -/
theorem cyclic_import_detection_instance :
    evalList bareWorld [⟨3⟩] (fun _ t => (.ok [], t)) ⟨[]⟩
        [Item.importFile ⟨3⟩]
      = (.error [⟨.cyclicImport, "cyclic import"⟩], ⟨[]⟩)
    ∧ hasFuelErr
        (evalSource cycleWorld2 3 Route.defaultRoute ⟨[]⟩ cycleWorld2.main).1
      = false :=
  ⟨cyclic_import_detection.1 bareWorld [⟨3⟩] (fun _ t => (.ok [], t)) ⟨[]⟩
     ⟨3⟩ [] (by decide),
   cyclic_import_detection.2.2.2.2 cycleWorld2 3 ⟨[]⟩ (by decide)⟩

theorem evalItem_congr (w1 w2 : World) (route : Route)
    (imp1 imp2 : FileId → Tracer → (Except Diags Content) × Tracer)
    (hfont : ∀ i, w1.font i = w2.font i)
    (htoday : ∀ off, w1.today off = w2.today off)
    (himp : ∀ id t, imp1 id t = imp2 id t)
    (t : Tracer) (it : Item) :
    evalItem w1 route imp1 t it = evalItem w2 route imp2 t it := by
  cases it with
  | text s => rfl
  | warn m => rfl
  | raise m => rfl
  | useFont i => simp only [evalItem, hfont i]
  | useToday off => simp only [evalItem, htoday off]
  | importFile id =>
    simp only [evalItem]
    by_cases hm : id ∈ route
    · rw [if_pos hm, if_pos hm]
    · rw [if_neg hm, if_neg hm, himp id t]

theorem evalList_congr (w1 w2 : World) (route : Route)
    (imp1 imp2 : FileId → Tracer → (Except Diags Content) × Tracer)
    (hfont : ∀ i, w1.font i = w2.font i)
    (htoday : ∀ off, w1.today off = w2.today off)
    (himp : ∀ id t, imp1 id t = imp2 id t) :
    ∀ (t : Tracer) (items : List Item),
    evalList w1 route imp1 t items = evalList w2 route imp2 t items := by
  intro t items
  induction items generalizing t with
  | nil => rfl
  | cons it rest ih =>
    rw [evalList, evalList,
      evalItem_congr w1 w2 route imp1 imp2 hfont htoday himp t it]
    rcases h : evalItem w2 route imp2 t it with ⟨r, t'⟩
    cases r with
    | error e => rfl
    | ok c =>
      simp only []
      rw [ih t']

theorem evalSource_congr (w1 w2 : World)
    (hsource : ∀ id, w1.source id = w2.source id)
    (hfont : ∀ i, w1.font i = w2.font i)
    (htoday : ∀ off, w1.today off = w2.today off) :
    ∀ (fuel : Nat) (route : Route) (t : Tracer) (src : Source),
    evalSource w1 fuel route t src = evalSource w2 fuel route t src := by
  intro fuel
  induction fuel with
  | zero =>
    intro route t src
    rfl
  | succ fuel ih =>
    intro route t src
    have hfn : evalSource w1 fuel = evalSource w2 fuel := by
      funext route' t' src'
      exact ih route' t' src'
    have himp : ∀ id t',
        importHandler w1 (evalSource w1 fuel) (src.id :: route) id t'
          = importHandler w2 (evalSource w2 fuel) (src.id :: route) id t' := by
      intro id t'
      rw [importHandler, importHandler, hsource id, hfn]
    rw [evalSource, evalSource,
      evalList_congr w1 w2 (src.id :: route)
        (importHandler w1 (evalSource w1 fuel) (src.id :: route))
        (importHandler w2 (evalSource w2 fuel) (src.id :: route))
        hfont htoday himp t src.items]

/-- C4: compilation is deterministic — two providers presenting the same
dependency content (the same main source, the same source text, file
bytes, fonts and dates for every identifier, the same library and book)
yield the very same compilation result, and evaluation of any one source
under any route and tracer yields value-equal modules across the two. -/
theorem compile_deterministic (fuel : Nat) (w1 w2 : World)
    (hmain : w1.main = w2.main)
    (hsource : ∀ id, w1.source id = w2.source id)
    (hfile : ∀ id, w1.file id = w2.file id)
    (hfont : ∀ i, w1.font i = w2.font i)
    (htoday : ∀ off, w1.today off = w2.today off)
    (hlib : w1.libraryScope = w2.libraryScope)
    (hbook : w1.book = w2.book) :
    compile fuel w1 = compile fuel w2
    ∧ ∀ (route : Route) (t : Tracer) (src : Source),
      evalSource w1 fuel route t src = evalSource w2 fuel route t src := by
  have hev := evalSource_congr w1 w2 hsource hfont htoday
  refine ⟨?_, hev fuel⟩
  simp only [compile]
  rw [hmain, hev fuel Route.defaultRoute Tracer.defaultTracer w2.main]
  rcases h : evalSource w2 fuel Route.defaultRoute Tracer.defaultTracer w2.main
    with ⟨r, t⟩
  cases r with
  | error e => rfl
  | ok m => rfl

/-- A concrete provider for the determinism instance. -/
def detWorldA : World :=
  { libraryScope := [], book := [], fonts := [], blobs := []
    main := ⟨⟨0⟩, [Item.text "d", Item.useToday none]⟩
    files := []
    todayFn := fun _ => none }

/-- A provider presenting the same content as `detWorldA` through
differently written (but pointwise equal) accessors. -/
def detWorldB : World :=
  { libraryScope := [], book := [], fonts := [], blobs := []
    main := ⟨⟨0⟩, [Item.text "d", Item.useToday none]⟩
    files := [] ++ []
    todayFn := fun _ => Option.map id none }

/-- C4 (witness): the two concrete equal-content providers compile to the
same result and evaluate their main source to value-equal modules. -/
theorem compile_deterministic_instance :
    compile 2 detWorldA = compile 2 detWorldB
    ∧ evalSource detWorldA 2 [] ⟨[]⟩ detWorldA.main
      = evalSource detWorldB 2 [] ⟨[]⟩ detWorldA.main :=
  ⟨(compile_deterministic 2 detWorldA detWorldB rfl (fun _ => rfl)
      (fun _ => rfl) (fun _ => rfl) (fun _ => rfl) rfl rfl).1,
   (compile_deterministic 2 detWorldA detWorldB rfl (fun _ => rfl)
      (fun _ => rfl) (fun _ => rfl) (fun _ => rfl) rfl rfl).2
     [] ⟨[]⟩ detWorldA.main⟩

end Typst
